import Mathlib

/-!
Verification of the cloud-gate CQL proxy `filter` package against its
specification.  The Go source is shallowly embedded: byte streams are
`List Nat` (each entry a byte value, reduced mod 256 where the machine
reads it), strings are `List Char`, and the stateful proxy structure is
threaded explicitly.  The embedding follows the `filter` package source
function by function.
-/

namespace ZdmProxy

/-! ### Frame demarshaller (`forward`)

`forward` accumulates socket reads in `data` and repeatedly peels one
frame: it requires at least `cassHdrLen` buffered bytes, reads the
big-endian u32 body length at bytes [5..9), and requires
`len(data) >= cassHdrLen + bodyLength` while `len(data) <= cassMaxLen`;
otherwise it breaks out and waits for the next read.  A peeled frame is
written to the destination and the buffer advanced past it. -/

def cassHdrLen : Nat := 9

def cassMaxLen : Nat := 268435456

/-- `binary.BigEndian.Uint32(data[5:9])`: the body length claimed by the
frame header buffered in `data`.  Each entry is reduced mod 256 because the
Go buffer holds bytes. -/
def bodyLen (data : List Nat) : Nat :=
  (data.getD 5 0 % 256) * 16777216 + (data.getD 6 0 % 256) * 65536 +
    (data.getD 7 0 % 256) * 256 + (data.getD 8 0 % 256)

/-- The inner `for true` peel loop of `forward`.  Each iteration either
peels one frame of at least `cassHdrLen` bytes off the front of `data` or
breaks (returning what is left in the buffer); `fuel` bounds the number of
iterations.  The caller passes the buffer length, which suffices because
every peeled frame is nonempty; every theorem below holds for every fuel
value, so nothing depends on that adequacy argument. -/
def peelFramesFuel : Nat → List Nat → List (List Nat) × List Nat
  | 0, data => ([], data)
  | fuel + 1, data =>
    if data.length < cassHdrLen then ([], data)
    else if data.length < cassHdrLen + bodyLen data ∨ cassMaxLen < data.length then ([], data)
    else
      let fullLength := cassHdrLen + bodyLen data
      let rest := peelFramesFuel fuel (data.drop fullLength)
      (data.take fullLength :: rest.1, rest.2)

/-- All frames the peel loop emits from the buffer `data`, together with
the unconsumed remainder left in the buffer. -/
def peelFrames (data : List Nat) : List (List Nat) × List Nat :=
  peelFramesFuel data.length data

/-- The outer read loop of `forward`: each socket read appends a chunk to
the buffer and then runs the peel loop.  Returns every frame emitted over
the whole chunk sequence and the final buffer contents. -/
def feedChunks (buf : List Nat) : List (List Nat) → List (List Nat) × List Nat
  | [] => ([], buf)
  | c :: cs =>
    let pr := peelFrames (buf ++ c)
    let rest := feedChunks pr.2 cs
    (pr.1 ++ rest.1, rest.2)

/-- Run the demarshaller of one forwarder over a sequence of socket
reads, starting from the empty buffer. -/
def runDemarshaller (chunks : List (List Nat)) : List (List Nat) × List Nat :=
  feedChunks [] chunks

/-- Concatenation of a list of byte strings. -/
def bytesOf (frames : List (List Nat)) : List Nat :=
  frames.foldr (fun a b => a ++ b) []

/-- A buffered 9-byte header whose claimed body length is
`0x10000001 = 268435457` bytes, one more than `cassMaxLen`. -/
def oversizeHeader : List Nat := [4, 0, 0, 0, 8, 16, 0, 0, 1]

/-! ### Mirror classifier entry (`mirrorData`)

`mirrorData` first rejects frames whose compression flag (low bit of
byte 1) is set, then branches: `if data[0] > 0x80` the frame is parsed as
a reply (only to harvest prepared-query ids), otherwise it is parsed as a
request by `cqlparser.CassandraParseRequest`. -/

inductive MirrorAction
  | compressedErr
  | reply
  | request
deriving DecidableEq

/-- The branch taken by `mirrorData` on a frame, as a function of its
header bytes. -/
def mirrorClassify (data : List Nat) : MirrorAction :=
  if data.getD 1 0 % 2 = 1 then MirrorAction.compressedErr
  else if 128 < data.getD 0 0 % 256 then MirrorAction.reply
  else MirrorAction.request

/-! ### Mirror write execution (`execute`, `consumeQueue`)

`execute` writes the raw query bytes to the single Astra connection, up to
5 attempts with a 500 ms `time.Sleep` after every failed attempt.  The Go
function declares `var err error` and returns it, but the loop body reads
the write result into a freshly declared variable (`_, err := ...` with
`:=`), which shadows the outer `err`; the outer variable is therefore
never assigned and `execute` always returns nil.  `writeErr i` is the
outcome of the i-th write attempt (`none` = success). -/

/-- The retry loop of `execute`: returns (number of write attempts made,
total milliseconds slept), starting at attempt `i` with `r` loop
iterations left. -/
def executeAttempts (writeErr : Nat → Option String) (i : Nat) : Nat → Nat × Nat
  | 0 => (0, 0)
  | r + 1 =>
    match writeErr i with
    | none => (1, 0)
    | some _ =>
      let rest := executeAttempts writeErr (i + 1) r
      (rest.1 + 1, rest.2 + 500)

/-- `execute`: the returned error (always `none`, because of the
shadowing described above), the number of write attempts, and the total
sleep time in milliseconds. -/
def executeGo (writeErr : Nat → Option String) : Option String × Nat × Nat :=
  (none, executeAttempts writeErr 1 5)

/-- Metric counters of the proxy. -/
structure Metrics where
  PacketCount : Nat
  Reads : Nat
  Writes : Nat
  WriteFails : Nat
  ReadFails : Nat
deriving DecidableEq

def metricsZero : Metrics := ⟨0, 0, 0, 0, 0⟩

/-- One iteration of `consumeQueue` after a query is dequeued: run
`execute` and increment `WriteFails` if it reports an error, `Writes`
otherwise. -/
def consumeStep (writeErr : Nat → Option String) (m : Metrics) : Metrics :=
  match (executeGo writeErr).1 with
  | some _ => { m with WriteFails := m.WriteFails + 1 }
  | none => { m with Writes := m.Writes + 1 }

/-- A write oracle on which every attempt fails. -/
def allFail : Nat → Option String := fun _ => some "write refused"

/-! ### Table reference parsing (`extractTableInfo`)

`strings.IndexRune(s, c)` finds the first occurrence of `c`; the Go code
slices before it, after it, or not at all when it is absent. -/

/-- `s[:strings.IndexRune(s, c)]` when `c` occurs in `s`, else `s`. -/
def cutAtFirst (c : Char) (s : List Char) : List Char :=
  if c ∈ s then s.takeWhile (· != c) else s

/-- `s[strings.IndexRune(s, c)+1:]` when `c` occurs in `s`, else `s`. -/
def afterFirst (c : Char) (s : List Char) : List Char :=
  if c ∈ s then (s.dropWhile (· != c)).tail else s

/-- `extractTableInfo`: keyspace is the prefix of the original token
before its first `.` (empty when there is no `.`); the table name is the
token truncated at the first `;`, then taken after the first `.`, then
truncated at the first `(`. -/
def extractTableInfo (fromClause : List Char) : List Char × List Char :=
  let keyspace := if '.' ∈ fromClause then cutAtFirst '.' fromClause else []
  let tableName := cutAtFirst '(' (afterFirst '.' (cutAtFirst ';' fromClause))
  (keyspace, tableName)

/-! ### Migration state and the per-table pause interlock

Modelled from the spec: the `migration` package is not part of the given
source; its `Step` is an ordered enumeration whose only value the filter
code branches on is the terminal `LoadingDataComplete`, and a `Table`
carries a keyspace, a name and a `Step`. -/

inductive Step
  | waitingToUnload
  | unloadingData
  | loadingData
  | loadingDataComplete
deriving DecidableEq

inductive QueryType
  | use
  | insert
  | update
  | delete
  | truncate
  | prepareQ
  | misc
deriving DecidableEq

/-- The `Query` record queued for mirroring: the table it touches (`none`
for the table-less USE / PREPARE / MISC cases), its type, and the raw
frame bytes. -/
structure MQuery where
  table : Option (List Char × List Char)
  type : QueryType
  query : List Nat
deriving DecidableEq

/-- The parts of `CQLProxy` the mirror handlers touch.  Maps are
association lists; `tablePaused` and `queueLocks` hold the (keyspace,
table) pairs whose paused flag is true resp. whose latch mutex is held;
`astraWrites` records the frames handed to `execute` for the target
connection. -/
structure FilterState where
  tables : List (List Char × List (List Char × Step))
  tablePaused : List (List Char × List Char)
  queueLocks : List (List Char × List Char)
  queues : List ((List Char × List Char) × List MQuery)
  queueSizes : List ((List Char × List Char) × Nat)
  curKeyspace : List Char
  astraWrites : List (List Nat)
deriving DecidableEq

/-- `p.migrationStatus.Tables[keyspace][tableName]` (the `, ok` form). -/
def lookupTable (s : FilterState) (ks tn : List Char) : Option Step :=
  match s.tables.find? (fun e => e.1 == ks) with
  | none => none
  | some e =>
    match e.2.find? (fun t => t.1 == tn) with
    | none => none
    | some t => some t.2

/-- `tableStatus` reads the table's `Step` under its lock.  It is only
called after a successful existence check, so the default of `getD` is
never observed. -/
def tableStatus (s : FilterState) (ks tn : List Char) : Step :=
  (lookupTable s ks tn).getD Step.waitingToUnload

/-- `stopTable`: set `tablePaused[ks][tn] = true` and acquire
`queueLocks[ks][tn]`. -/
def stopTable (s : FilterState) (ks tn : List Char) : FilterState :=
  { s with
    tablePaused := (ks, tn) :: s.tablePaused,
    queueLocks := (ks, tn) :: s.queueLocks }

/-- `queueQuery`: append the query to its table's channel and bump the
queue-size counter.  (At every call site `query.Table` is the table just
looked up, so the `none` branch is unreachable.) -/
def queueQuery (s : FilterState) (q : MQuery) : FilterState :=
  match q.table with
  | none => s
  | some k =>
    { s with
      queues := s.queues.map (fun e => if e.1 == k then (e.1, e.2 ++ [q]) else e),
      queueSizes := s.queueSizes.map (fun e => if e.1 == k then (e.1, e.2 + 1) else e) }

/-- `handleUpdateQuery`: error when the table is unknown; otherwise pause
the table first when it is not already paused and its step is not
`LoadingDataComplete`, then enqueue. -/
def handleUpdateQuery (s : FilterState) (query : List Nat) (ks tn : List Char) :
    FilterState × Option String :=
  match lookupTable s ks tn with
  | none => (s, some "table does not exist")
  | some _ =>
    let s1 :=
      if s.tablePaused.contains (ks, tn) = false ∧ tableStatus s ks tn ≠ Step.loadingDataComplete
      then stopTable s ks tn else s
    (queueQuery s1 ⟨some (ks, tn), QueryType.update, query⟩, none)

/-- `handleDeleteQuery`: same pause policy as update. -/
def handleDeleteQuery (s : FilterState) (query : List Nat) (ks tn : List Char) :
    FilterState × Option String :=
  match lookupTable s ks tn with
  | none => (s, some "table does not exist")
  | some _ =>
    let s1 :=
      if s.tablePaused.contains (ks, tn) = false ∧ tableStatus s ks tn ≠ Step.loadingDataComplete
      then stopTable s ks tn else s
    (queueQuery s1 ⟨some (ks, tn), QueryType.delete, query⟩, none)

/-- `handleTruncateQuery`: same pause policy as update. -/
def handleTruncateQuery (s : FilterState) (query : List Nat) (ks tn : List Char) :
    FilterState × Option String :=
  match lookupTable s ks tn with
  | none => (s, some "table does not exist")
  | some _ =>
    let s1 :=
      if s.tablePaused.contains (ks, tn) = false ∧ tableStatus s ks tn ≠ Step.loadingDataComplete
      then stopTable s ks tn else s
    (queueQuery s1 ⟨some (ks, tn), QueryType.truncate, query⟩, none)

/-- `handleInsertQuery`: error when the table is unknown; otherwise
enqueue directly — no pause check at all. -/
def handleInsertQuery (s : FilterState) (query : List Nat) (ks tn : List Char) :
    FilterState × Option String :=
  match lookupTable s ks tn with
  | none => (s, some "table does not exist")
  | some _ =>
    (queueQuery s ⟨some (ks, tn), QueryType.insert, query⟩, none)

/-! ### USE handling (`handleUseQuery`) -/

/-- The keyspace normalization at the top of `handleUseQuery`: a token
wrapped in double quotes keeps its case and loses the quotes via the Go
slice `keyspace[1 : len(keyspace)-1]`, anything else is lowercased.  On
the one-character token `"`, `HasPrefix` and `HasSuffix` both match the
same quote and the slice becomes `keyspace[1:0]`, which panics in Go;
that crash is modelled as `none`. -/
def normalizeKeyspace (keyspace : List Char) : Option (List Char) :=
  if keyspace.head? = some '"' ∧ keyspace.getLast? = some '"' then
    if keyspace.length = 1 then none
    else some ((keyspace.drop 1).dropLast)
  else
    some (keyspace.map Char.toLower)

/-- `_, ok := p.migrationStatus.Tables[keyspace]`. -/
def hasKeyspace (s : FilterState) (ks : List Char) : Bool :=
  (s.tables.find? (fun e => e.1 == ks)).isSome

/-- `handleUseQuery`: normalize the keyspace token (propagating the
panic of the normalization as `none` — the process crashes before any
check or mutation), fail when the normalized keyspace is not a key of
the migration status tables map (leaving the proxy untouched);
otherwise record it as the current keyspace and hand the raw query to
`execute` for the target connection. -/
def handleUseQuery (s : FilterState) (query : List Nat) (keyspaceTok : List Char) :
    Option (FilterState × Option String) :=
  match normalizeKeyspace keyspaceTok with
  | none => none
  | some keyspace =>
    if hasKeyspace s keyspace then
      some ({ s with curKeyspace := keyspace, astraWrites := s.astraWrites ++ [query] }, none)
    else
      some (s, some "invalid keyspace")

/-! ### Lifecycle: origin connection count and `ReadyForRedirect`

Atomic-event model of the sequential interleaving of
`handleDatabaseConnection` (which dials the origin and increments
`connectionsToSource` iff `migrationComplete` is still false), the
`MigrationCompleteChan` case of `migrationLoop` (which sets
`migrationComplete`), and `decrementSources` (run by the deferred close
of the client→origin forwarder: decrement, then signal
`ReadyForRedirect` when `migrationComplete` holds and the count reached
zero).  `redirectSignals` counts the sends on `ReadyForRedirect`. -/

inductive LifeEvent
  | connect
  | complete
  | disconnect
deriving DecidableEq

structure LifeState where
  migrationComplete : Bool
  connectionsToSource : Int
  redirectSignals : Nat
deriving DecidableEq

/-- One atomic lifecycle event. -/
def lifeStep (s : LifeState) : LifeEvent → LifeState
  | LifeEvent.connect =>
    if s.migrationComplete then s
    else { s with connectionsToSource := s.connectionsToSource + 1 }
  | LifeEvent.complete => { s with migrationComplete := true }
  | LifeEvent.disconnect =>
    if s.migrationComplete ∧ s.connectionsToSource - 1 = 0 then
      { s with
        connectionsToSource := s.connectionsToSource - 1,
        redirectSignals := s.redirectSignals + 1 }
    else { s with connectionsToSource := s.connectionsToSource - 1 }

def lifeRun (s : LifeState) : List LifeEvent → LifeState
  | [] => s
  | e :: es => lifeRun (lifeStep s e) es

/-- The initial proxy state: `migrationComplete` comes from the
`migration_complete` environment variable, no origin connections, no
signal sent. -/
def lifeInit (mc : Bool) : LifeState := ⟨mc, 0, 0⟩

/-- Well-formed traces: every `disconnect` closes an origin connection
that is actually open (each `decrementSources` is the deferred cleanup of
a forwarder whose `incrementSources` ran earlier). -/
def wfTrace (s : LifeState) : List LifeEvent → Bool
  | [] => true
  | e :: es =>
    ((e != LifeEvent.disconnect) || decide (0 < s.connectionsToSource)) &&
      wfTrace (lifeStep s e) es

/-! ### Concrete inputs used by witnesses and counterexamples -/

def chunksW : List (List Nat) := [[4, 0, 0, 0, 0, 0], [0, 0, 1, 99]]

def frameW : List Nat := [4, 0, 0, 0, 0, 0, 0, 0, 1, 99]

def frame80 : List Nat := [128, 0, 0, 0, 0, 0, 0, 0, 0]

def frame84 : List Nat := [132, 0, 0, 0, 0, 0, 0, 0, 0]

def ksA : List Char := ['k', 's', '1']

def tnA : List Char := ['t', '1']

def sampleState : FilterState :=
  { tables := [(ksA, [(tnA, Step.loadingData)])],
    tablePaused := [],
    queueLocks := [],
    queues := [((ksA, tnA), [])],
    queueSizes := [((ksA, tnA), 0)],
    curKeyspace := [],
    astraWrites := [] }

def traceW : List LifeEvent := [LifeEvent.connect, LifeEvent.complete, LifeEvent.disconnect]

/-! ## Helper lemmas -/

@[simp] lemma bytesOf_nil : bytesOf [] = [] := rfl

@[simp] lemma bytesOf_cons (a : List Nat) (l : List (List Nat)) :
    bytesOf (a :: l) = a ++ bytesOf l := rfl

lemma bytesOf_append (l r : List (List Nat)) :
    bytesOf (l ++ r) = bytesOf l ++ bytesOf r := by
  induction l with
  | nil => simp
  | cons a l ih => simp [ih]

lemma getD_take_of_lt (l : List Nat) (n i : Nat) (h : i < n) :
    (l.take n).getD i 0 = l.getD i 0 := by
  induction l generalizing n i with
  | nil => simp
  | cons a l ih =>
    cases n with
    | zero => omega
    | succ m =>
      cases i with
      | zero => simp [List.getD]
      | succ j =>
        simp only [List.take_succ_cons, List.getD_cons_succ]
        exact ih m j (by omega)

lemma getD_append_left (l r : List Nat) (i : Nat) (h : i < l.length) :
    (l ++ r).getD i 0 = l.getD i 0 := by
  induction l generalizing i with
  | nil => simp at h
  | cons a l ih =>
    cases i with
    | zero => simp [List.getD]
    | succ j =>
      simp only [List.cons_append, List.getD_cons_succ]
      exact ih j (by simpa using Nat.lt_of_succ_lt_succ h)

lemma bodyLen_take (data : List Nat) (n : Nat) (h : 9 ≤ n) :
    bodyLen (data.take n) = bodyLen data := by
  unfold bodyLen
  rw [getD_take_of_lt data n 5 (by omega), getD_take_of_lt data n 6 (by omega),
    getD_take_of_lt data n 7 (by omega), getD_take_of_lt data n 8 (by omega)]

/-- The peel loop consumes exactly what it emits: the emitted frames,
concatenated, followed by the leftover buffer, reconstruct the input
buffer. -/
lemma peelFramesFuel_concat (fuel : Nat) (data : List Nat) :
    bytesOf (peelFramesFuel fuel data).1 ++ (peelFramesFuel fuel data).2 = data := by
  induction fuel generalizing data with
  | zero => simp [peelFramesFuel]
  | succ fuel ih =>
    by_cases h1 : data.length < cassHdrLen
    · simp [peelFramesFuel, h1]
    · by_cases h2 : data.length < cassHdrLen + bodyLen data ∨ cassMaxLen < data.length
      · simp [peelFramesFuel, h1, h2]
      · simp only [peelFramesFuel, if_neg h1, if_neg h2, bytesOf_cons]
        rw [List.append_assoc, ih (data.drop (cassHdrLen + bodyLen data)),
          List.take_append_drop]

/-- Every frame the peel loop emits is a complete header-plus-body whose
length agrees with the big-endian u32 at header bytes [5..9). -/
lemma peelFramesFuel_mem (fuel : Nat) (data f : List Nat)
    (hf : f ∈ (peelFramesFuel fuel data).1) :
    f.length = cassHdrLen + bodyLen f := by
  induction fuel generalizing data with
  | zero => simp [peelFramesFuel] at hf
  | succ fuel ih =>
    by_cases h1 : data.length < cassHdrLen
    · simp [peelFramesFuel, h1] at hf
    · by_cases h2 : data.length < cassHdrLen + bodyLen data ∨ cassMaxLen < data.length
      · simp [peelFramesFuel, h1, h2] at hf
      · simp only [peelFramesFuel, if_neg h1, if_neg h2, List.mem_cons] at hf
        rcases hf with hf | hf
        · subst hf
          push_neg at h2
          have hlen : (data.take (cassHdrLen + bodyLen data)).length
              = cassHdrLen + bodyLen data := by
            simp [List.length_take]
            omega
          rw [hlen, bodyLen_take data (cassHdrLen + bodyLen data)
            (by simp [cassHdrLen])]
        · exact ih _ hf

lemma peelFrames_concat (data : List Nat) :
    bytesOf (peelFrames data).1 ++ (peelFrames data).2 = data :=
  peelFramesFuel_concat data.length data

lemma peelFrames_mem (data f : List Nat) (hf : f ∈ (peelFrames data).1) :
    f.length = cassHdrLen + bodyLen f :=
  peelFramesFuel_mem data.length data f hf

lemma feedChunks_concat (buf : List Nat) (cs : List (List Nat)) :
    bytesOf (feedChunks buf cs).1 ++ (feedChunks buf cs).2 = buf ++ bytesOf cs := by
  induction cs generalizing buf with
  | nil => simp [feedChunks]
  | cons c cs ih =>
    simp only [feedChunks, bytesOf_cons]
    rw [bytesOf_append, List.append_assoc, ih, ← List.append_assoc,
      peelFrames_concat, List.append_assoc]

lemma feedChunks_mem (buf : List Nat) (cs : List (List Nat)) (f : List Nat)
    (hf : f ∈ (feedChunks buf cs).1) :
    f.length = cassHdrLen + bodyLen f := by
  induction cs generalizing buf with
  | nil => simp [feedChunks] at hf
  | cons c cs ih =>
    simp only [feedChunks, List.mem_append] at hf
    rcases hf with hf | hf
    · exact peelFrames_mem _ _ hf
    · exact ih _ hf

/-- Once the buffered header claims a frame larger than `cassMaxLen`, the
peel loop never again emits anything from that buffer. -/
lemma peelFramesFuel_oversize (fuel : Nat) (data : List Nat)
    (hb : cassMaxLen < cassHdrLen + bodyLen data) :
    peelFramesFuel fuel data = ([], data) := by
  cases fuel with
  | zero => rfl
  | succ fuel =>
    by_cases h1 : data.length < cassHdrLen
    · simp [peelFramesFuel, h1]
    · have h2 : data.length < cassHdrLen + bodyLen data ∨ cassMaxLen < data.length := by
        by_cases hl : data.length < cassHdrLen + bodyLen data
        · exact Or.inl hl
        · right; omega
      simp [peelFramesFuel, h1, h2]

lemma all_bne_of_not_mem {c : Char} {l : List Char} (h : c ∉ l) :
    ∀ a ∈ l, (a != c) = true := by
  intro a ha
  simp only [bne_iff_ne, ne_eq]
  intro e
  exact h (e ▸ ha)

lemma takeWhile_append_cons {p : Char → Bool} {l : List Char} (c : Char) (r : List Char)
    (hl : ∀ a ∈ l, p a = true) (hc : p c = false) :
    ((l ++ c :: r).takeWhile p) = l := by
  induction l with
  | nil => simp [List.takeWhile_cons, hc]
  | cons a l ih =>
    have ha := hl a (List.mem_cons_self a l)
    have hrest := ih (fun b hb => hl b (List.mem_cons_of_mem a hb))
    simp [List.takeWhile_cons, ha, hrest]

lemma takeWhile_append_all {p : Char → Bool} {l : List Char} (r : List Char)
    (hl : ∀ a ∈ l, p a = true) :
    ((l ++ r).takeWhile p) = l ++ r.takeWhile p := by
  induction l with
  | nil => simp
  | cons a l ih =>
    have ha := hl a (List.mem_cons_self a l)
    have hrest := ih (fun b hb => hl b (List.mem_cons_of_mem a hb))
    simp [List.takeWhile_cons, ha, hrest]

lemma dropWhile_append_cons {p : Char → Bool} {l : List Char} (c : Char) (r : List Char)
    (hl : ∀ a ∈ l, p a = true) (hc : p c = false) :
    ((l ++ c :: r).dropWhile p) = c :: r := by
  induction l with
  | nil => simp [List.dropWhile_cons, hc]
  | cons a l ih =>
    have ha := hl a (List.mem_cons_self a l)
    have hrest := ih (fun b hb => hl b (List.mem_cons_of_mem a hb))
    simp [List.dropWhile_cons, ha, hrest]

lemma cutAtFirst_not_mem {c : Char} {s : List Char} (h : c ∉ s) :
    cutAtFirst c s = s := by
  unfold cutAtFirst
  rw [if_neg h]

lemma cutAtFirst_append_cons {c : Char} {l : List Char} (r : List Char) (h : c ∉ l) :
    cutAtFirst c (l ++ c :: r) = l := by
  rw [cutAtFirst, if_pos (by simp)]
  exact takeWhile_append_cons c r (all_bne_of_not_mem h) (by simp)

lemma cutAtFirst_append_of_not_mem {c : Char} (l r : List Char) (h : c ∉ l) :
    cutAtFirst c (l ++ r) = l ++ cutAtFirst c r := by
  by_cases hr : c ∈ r
  · rw [cutAtFirst, if_pos (by simp [hr]),
      takeWhile_append_all r (all_bne_of_not_mem h), cutAtFirst, if_pos hr]
  · have hlr : c ∉ l ++ r := by
      simp only [List.mem_append]
      rintro (hx | hx)
      · exact h hx
      · exact hr hx
    rw [cutAtFirst_not_mem hlr, cutAtFirst_not_mem hr]

lemma afterFirst_append_cons {c : Char} {l : List Char} (r : List Char) (h : c ∉ l) :
    afterFirst c (l ++ c :: r) = r := by
  rw [afterFirst, if_pos (by simp)]
  rw [dropWhile_append_cons c r (all_bne_of_not_mem h) (by simp)]
  rfl

/-- Computation of `extractTableInfo` on a token with a dot: the keyspace
is the verbatim prefix before the dot and the table name is what follows,
truncated at the first `;` and then at the first `(`. -/
lemma extractTableInfo_dot (ks mid : List Char) (h1 : '.' ∉ ks) (h2 : ';' ∉ ks) :
    extractTableInfo (ks ++ '.' :: mid)
      = (ks, cutAtFirst '(' (cutAtFirst ';' mid)) := by
  unfold extractTableInfo
  have hdot : '.' ∈ ks ++ '.' :: mid := by simp
  rw [if_pos hdot, cutAtFirst_append_cons mid h1]
  have hsplit : ks ++ '.' :: mid = (ks ++ ['.']) ++ mid := by simp
  have hsemi : ';' ∉ ks ++ ['.'] := by
    simp only [List.mem_append, List.mem_singleton]
    rintro (hx | hx)
    · exact h2 hx
    · cases hx
  rw [hsplit, cutAtFirst_append_of_not_mem (ks ++ ['.']) mid hsemi]
  have hback : (ks ++ ['.']) ++ cutAtFirst ';' mid = ks ++ '.' :: cutAtFirst ';' mid := by
    simp
  rw [hback, afterFirst_append_cons (cutAtFirst ';' mid) h1]

/-- `extractTableInfo` on well-formed tokens `ks.tn`, `ks.tn;…`, and
`ks.tn(…`. -/
lemma extractTableInfo_token (ks tn : List Char)
    (h1 : '.' ∉ ks) (h2 : ';' ∉ ks) (h4 : ';' ∉ tn) (h5 : '(' ∉ tn) :
    extractTableInfo (ks ++ '.' :: tn) = (ks, tn) ∧
    (∀ rest, extractTableInfo (ks ++ '.' :: (tn ++ ';' :: rest)) = (ks, tn)) ∧
    (∀ rest, extractTableInfo (ks ++ '.' :: (tn ++ '(' :: rest)) = (ks, tn)) := by
  refine ⟨?_, ?_, ?_⟩
  · rw [extractTableInfo_dot ks tn h1 h2, cutAtFirst_not_mem h4, cutAtFirst_not_mem h5]
  · intro rest
    rw [extractTableInfo_dot ks (tn ++ ';' :: rest) h1 h2,
      cutAtFirst_append_cons rest h4, cutAtFirst_not_mem h5]
  · intro rest
    rw [extractTableInfo_dot ks (tn ++ '(' :: rest) h1 h2]
    have hsemi : ';' ∉ tn ++ ['('] := by
      simp only [List.mem_append, List.mem_singleton]
      rintro (hx | hx)
      · exact h4 hx
      · cases hx
    have hsplit : tn ++ '(' :: rest = (tn ++ ['(']) ++ rest := by simp
    rw [hsplit, cutAtFirst_append_of_not_mem (tn ++ ['(']) rest hsemi]
    have hback : (tn ++ ['(']) ++ cutAtFirst ';' rest = tn ++ '(' :: cutAtFirst ';' rest := by
      simp
    rw [hback, cutAtFirst_append_cons (cutAtFirst ';' rest) h5]

/-- The retry loop makes at most `r` attempts and sleeps at most
`500 * r` milliseconds. -/
lemma executeAttempts_bound (writeErr : Nat → Option String) (i r : Nat) :
    (executeAttempts writeErr i r).1 ≤ r ∧ (executeAttempts writeErr i r).2 ≤ 500 * r := by
  induction r generalizing i with
  | zero => simp [executeAttempts]
  | succ r ih =>
    cases hw : writeErr i with
    | none => simp [executeAttempts, hw]
    | some e =>
      have h := ih (i + 1)
      simp only [executeAttempts, hw]
      constructor
      · exact Nat.succ_le_succ h.1
      · calc (executeAttempts writeErr (i + 1) r).2 + 500
            ≤ 500 * r + 500 := Nat.add_le_add_right h.2 500
          _ = 500 * (r + 1) := by ring

/-- Lifecycle invariant: at most one `ReadyForRedirect` signal ever, and
once it is sent the proxy is in the completed phase with no origin
connections left. -/
def LifeInv (s : LifeState) : Prop :=
  0 ≤ s.connectionsToSource ∧ s.redirectSignals ≤ 1 ∧
    (s.redirectSignals = 1 → s.migrationComplete = true ∧ s.connectionsToSource = 0)

lemma lifeInv_step (s : LifeState) (e : LifeEvent) (hs : LifeInv s)
    (hwf : e = LifeEvent.disconnect → 0 < s.connectionsToSource) :
    LifeInv (lifeStep s e) := by
  unfold LifeInv at hs ⊢
  obtain ⟨hc, hle, hone⟩ := hs
  cases e with
  | connect =>
    by_cases hm : s.migrationComplete
    · have hstep : lifeStep s LifeEvent.connect = s := by simp [lifeStep, hm]
      rw [hstep]
      exact ⟨hc, hle, hone⟩
    · have hstep : lifeStep s LifeEvent.connect
          = { s with connectionsToSource := s.connectionsToSource + 1 } := by
        simp [lifeStep, hm]
      rw [hstep]
      refine ⟨?_, hle, ?_⟩
      · show (0 : Int) ≤ s.connectionsToSource + 1
        omega
      · intro h1
        exact absurd (hone h1).1 hm
  | complete =>
    exact ⟨hc, hle, fun h1 => ⟨rfl, (hone h1).2⟩⟩
  | disconnect =>
    have hpos : 0 < s.connectionsToSource := hwf rfl
    have hnot1 : s.redirectSignals ≠ 1 := by
      intro h1
      have h2 := (hone h1).2
      omega
    have hzero : s.redirectSignals = 0 := by omega
    by_cases hsig : s.migrationComplete ∧ s.connectionsToSource - 1 = 0
    · have hstep : lifeStep s LifeEvent.disconnect
          = { s with
              connectionsToSource := s.connectionsToSource - 1,
              redirectSignals := s.redirectSignals + 1 } := by
        simp [lifeStep, hsig]
      rw [hstep]
      refine ⟨?_, ?_, ?_⟩
      · show (0 : Int) ≤ s.connectionsToSource - 1
        have h2 := hsig.2
        omega
      · show s.redirectSignals + 1 ≤ 1
        omega
      · intro _
        exact ⟨hsig.1, hsig.2⟩
    · have hstep : lifeStep s LifeEvent.disconnect
          = { s with connectionsToSource := s.connectionsToSource - 1 } := by
        simp [lifeStep, hsig]
      rw [hstep]
      refine ⟨?_, hle, ?_⟩
      · show (0 : Int) ≤ s.connectionsToSource - 1
        omega
      · intro h1
        exact absurd h1 hnot1

lemma lifeInv_run (s : LifeState) (t : List LifeEvent) (hs : LifeInv s)
    (hwf : wfTrace s t = true) : LifeInv (lifeRun s t) := by
  induction t generalizing s with
  | nil => exact hs
  | cons e es ih =>
    simp only [wfTrace, Bool.and_eq_true, Bool.or_eq_true] at hwf
    refine ih (lifeStep s e) (lifeInv_step s e hs ?_) hwf.2
    intro he
    rcases hwf.1 with hx | hx
    · rw [he] at hx
      simp at hx
    · exact of_decide_eq_true hx

/-! ## Claim theorems -/

/-- C1: for every input byte stream fed to the frame demarshaller in a
forwarder, the concatenation of the emitted frames equals the consumed
prefix of the input (the input is exactly the emitted frames followed by
the unconsumed leftover — no reorder, modification, or duplication), and
every emitted frame `f` satisfies
`len(f) = 9 + big_endian_u32(f[5..9))`. -/
theorem demarshaller_alignment (chunks : List (List Nat)) :
    bytesOf (runDemarshaller chunks).1 ++ (runDemarshaller chunks).2 = bytesOf chunks ∧
    ∀ f ∈ (runDemarshaller chunks).1, f.length = cassHdrLen + bodyLen f := by
  refine ⟨?_, ?_⟩
  · have h := feedChunks_concat [] chunks
    simpa [runDemarshaller] using h
  · intro f hf
    exact feedChunks_mem [] chunks f hf

theorem demarshaller_alignment_witness :
    (bytesOf (runDemarshaller chunksW).1 ++ (runDemarshaller chunksW).2 = bytesOf chunksW) ∧
    frameW.length = cassHdrLen + bodyLen frameW :=
  ⟨(demarshaller_alignment chunksW).1,
   (demarshaller_alignment chunksW).2 frameW (by decide)⟩

/-- C2: evaluation of the code at the failing input.  `oversizeHeader`
claims a body length of 268435457 > `cassMaxLen` bytes, yet however many
further bytes arrive, the peel loop emits no frame and reports nothing:
`forward` has no error path here — the claimed `OversizeFrame` failure
does not exist, the demarshaller just waits for more bytes forever (the
guard compares the buffer length, not the claimed length, against
`cassMaxLen`, and `break`s instead of failing). -/
theorem oversize_waits_forever :
    cassMaxLen < bodyLen oversizeHeader ∧
    ∀ ext : List Nat, peelFrames (oversizeHeader ++ ext) = ([], oversizeHeader ++ ext) := by
  constructor
  · decide
  · intro ext
    unfold peelFrames
    apply peelFramesFuel_oversize
    have hb : bodyLen (oversizeHeader ++ ext) = 268435457 := by
      unfold bodyLen
      rw [getD_append_left _ ext 5 (by decide), getD_append_left _ ext 6 (by decide),
        getD_append_left _ ext 7 (by decide), getD_append_left _ ext 8 (by decide)]
      decide
    rw [hb]
    decide

/-- C3: a mirrored UPDATE / DELETE / TRUNCATE against a known table whose
step is not `LoadingDataComplete` and whose paused flag is not set first
pauses the table (paused set, latch acquired — `stopTable`) and only then
enqueues the query; a mirrored INSERT never touches the paused flag or
the latch, whatever the table's step. -/
theorem pause_policy (s : FilterState) (query : List Nat) (ks tn : List Char) (st : Step)
    (hlook : lookupTable s ks tn = some st)
    (hstep : st ≠ Step.loadingDataComplete)
    (hnp : s.tablePaused.contains (ks, tn) = false) :
    handleUpdateQuery s query ks tn
      = (queueQuery (stopTable s ks tn) ⟨some (ks, tn), QueryType.update, query⟩, none) ∧
    handleDeleteQuery s query ks tn
      = (queueQuery (stopTable s ks tn) ⟨some (ks, tn), QueryType.delete, query⟩, none) ∧
    handleTruncateQuery s query ks tn
      = (queueQuery (stopTable s ks tn) ⟨some (ks, tn), QueryType.truncate, query⟩, none) ∧
    ∀ (s2 : FilterState) (q2 : List Nat) (ks2 tn2 : List Char),
      (handleInsertQuery s2 q2 ks2 tn2).1.tablePaused = s2.tablePaused ∧
      (handleInsertQuery s2 q2 ks2 tn2).1.queueLocks = s2.queueLocks := by
  have hts : tableStatus s ks tn = st := by simp [tableStatus, hlook]
  have hcond : s.tablePaused.contains (ks, tn) = false ∧
      tableStatus s ks tn ≠ Step.loadingDataComplete := by
    refine ⟨hnp, ?_⟩
    rw [hts]
    exact hstep
  refine ⟨?_, ?_, ?_, ?_⟩
  · simp only [handleUpdateQuery, hlook, if_pos hcond]
  · simp only [handleDeleteQuery, hlook, if_pos hcond]
  · simp only [handleTruncateQuery, hlook, if_pos hcond]
  · intro s2 q2 ks2 tn2
    cases hl : lookupTable s2 ks2 tn2 with
    | none => simp [handleInsertQuery, hl]
    | some st2 => simp [handleInsertQuery, hl, queueQuery]

theorem pause_policy_witness :
    (lookupTable sampleState ksA tnA = some Step.loadingData ∧
     Step.loadingData ≠ Step.loadingDataComplete ∧
     sampleState.tablePaused.contains (ksA, tnA) = false) ∧
    handleUpdateQuery sampleState [1] ksA tnA
      = (queueQuery (stopTable sampleState ksA tnA)
          ⟨some (ksA, tnA), QueryType.update, [1]⟩, none) :=
  ⟨⟨by decide, by decide, by decide⟩,
   (pause_policy sampleState [1] ksA tnA Step.loadingData
     (by decide) (by decide) (by decide)).1⟩

/-- C4: along every well-formed execution trace, `ReadyForRedirect` is
signalled at most once; moreover a step can emit the signal only when
`migrationComplete` is already true and the origin connection count
transitions from a positive value to zero. -/
theorem ready_for_redirect_once (mc0 : Bool) (t : List LifeEvent)
    (hwf : wfTrace (lifeInit mc0) t = true) :
    (lifeRun (lifeInit mc0) t).redirectSignals ≤ 1 ∧
    ∀ (s : LifeState) (e : LifeEvent),
      s.redirectSignals < (lifeStep s e).redirectSignals →
        s.migrationComplete = true ∧ 0 < s.connectionsToSource ∧
          (lifeStep s e).connectionsToSource = 0 := by
  constructor
  · have hinit : LifeInv (lifeInit mc0) :=
      ⟨le_refl 0, Nat.zero_le 1, fun h => absurd h Nat.zero_ne_one⟩
    exact (lifeInv_run (lifeInit mc0) t hinit hwf).2.1
  · intro s e hlt
    cases e with
    | connect =>
      by_cases hm : s.migrationComplete
      · rw [show lifeStep s LifeEvent.connect = s from by simp [lifeStep, hm]] at hlt
        exact absurd hlt (lt_irrefl _)
      · rw [show lifeStep s LifeEvent.connect
            = { s with connectionsToSource := s.connectionsToSource + 1 } from
            by simp [lifeStep, hm]] at hlt
        exact absurd hlt (lt_irrefl _)
    | complete =>
      exact absurd hlt (lt_irrefl _)
    | disconnect =>
      by_cases hsig : s.migrationComplete ∧ s.connectionsToSource - 1 = 0
      · have hstep : lifeStep s LifeEvent.disconnect
            = { s with
                connectionsToSource := s.connectionsToSource - 1,
                redirectSignals := s.redirectSignals + 1 } := by
          simp [lifeStep, hsig]
        refine ⟨hsig.1, ?_, ?_⟩
        · have h2 := hsig.2
          omega
        · rw [hstep]
          exact hsig.2
      · have hstep : lifeStep s LifeEvent.disconnect
            = { s with connectionsToSource := s.connectionsToSource - 1 } := by
          simp [lifeStep, hsig]
        rw [hstep] at hlt
        exact absurd hlt (lt_irrefl _)

theorem ready_for_redirect_once_witness :
    wfTrace (lifeInit false) traceW = true ∧
    (lifeRun (lifeInit false) traceW).redirectSignals ≤ 1 :=
  ⟨by decide, (ready_for_redirect_once false traceW (by decide)).1⟩

/-- C5: evaluation of the code at the failing input.  With a write oracle
on which all five attempts fail, `execute` still returns no error — the
loop's `_, err := ...` declares a new `err` that shadows the returned
one — so `consumeQueue` increments `Writes`, not `WriteFails`,
contradicting the claimed error accounting. -/
theorem execute_error_shadowing :
    (executeGo allFail).1 = none ∧
    (executeGo allFail).2.1 = 5 ∧
    (consumeStep allFail metricsZero).Writes = 1 ∧
    (consumeStep allFail metricsZero).WriteFails = 0 := by
  decide

/-- C6 counterexample: when every write attempt fails, `execute` sleeps
500 ms after each of the 5 attempts — 2500 ms in total, which exceeds
the claimed 2-second bound. -/
theorem execute_sleep_counterexample :
    (executeGo allFail).2.2 = 2500 ∧ 2000 < (executeGo allFail).2.2 := by
  decide

/-- C6 (amended): `execute` makes at most 5 write attempts per query, and
the aggregate sleep is at most 2.5 s (500 ms after each failed attempt,
including the final one). -/
theorem execute_retry_bound (writeErr : Nat → Option String) :
    (executeGo writeErr).2.1 ≤ 5 ∧ (executeGo writeErr).2.2 ≤ 2500 := by
  have h := executeAttempts_bound writeErr 1 5
  refine ⟨h.1, ?_⟩
  show (executeAttempts writeErr 1 5).2 ≤ 2500
  have h2 := h.2
  omega

/-- C7 counterexample: a frame whose byte 0 equals 0x80 (compression flag
clear) is NOT classified as a reply by `mirrorData` — the code tests
`data[0] > 0x80`, strictly. -/
theorem reply_boundary_counterexample :
    frame80.getD 0 0 = 128 ∧ frame80.getD 1 0 % 2 = 0 ∧
    mirrorClassify frame80 = MirrorAction.request ∧
    mirrorClassify frame80 ≠ MirrorAction.reply := by
  decide

/-- C7 (amended): a frame that passes the compression check is treated as
a reply if and only if its byte 0 is strictly greater than 0x80; byte 0
equal to 0x80 falls through to request parsing. -/
theorem mirror_reply_iff (data : List Nat) (hc : data.getD 1 0 % 2 = 0) :
    mirrorClassify data = MirrorAction.reply ↔ 128 < data.getD 0 0 % 256 := by
  unfold mirrorClassify
  rw [if_neg (by omega)]
  by_cases h2 : 128 < data.getD 0 0 % 256
  · simp [h2]
  · simp [h2]

theorem mirror_reply_iff_witness :
    frame84.getD 1 0 % 2 = 0 ∧
    (mirrorClassify frame84 = MirrorAction.reply ↔ 128 < frame84.getD 0 0 % 256) :=
  ⟨by decide, mirror_reply_iff frame84 (by decide)⟩

/-- C8 counterexample: `extractTableInfo` performs no quote-dropping and
no lowercasing of the keyspace token — a double-quoted keyspace keeps its
quotes and an unquoted upper-case keyspace keeps its case (that
normalization lives in `handleUseQuery` only). -/
theorem extract_table_info_keyspace_counterexample :
    (extractTableInfo ['"', 'K', 's', '"', '.', 't']).1 = ['"', 'K', 's', '"'] ∧
    (extractTableInfo ['"', 'K', 's', '"', '.', 't']).1 ≠ ['K', 's'] ∧
    (extractTableInfo ['K', 'S', '.', 't']).1 = ['K', 'S'] := by
  decide

/-- C8 (amended): for a table-reference token `ks.tn`, `ks.tn;…`, or
`ks.tn(…` (keyspace free of `.` and `;`, table name free of `;` and `(`),
`extractTableInfo` truncates at the first `;`, splits on the first `.`,
strips anything at or after `(`, and returns the keyspace token verbatim
— without dropping quotes or lowercasing. -/
theorem extractTableInfo_characterization (ks tn rest : List Char)
    (h1 : '.' ∉ ks) (h2 : ';' ∉ ks) (h4 : ';' ∉ tn) (h5 : '(' ∉ tn) :
    extractTableInfo (ks ++ '.' :: tn) = (ks, tn) ∧
    extractTableInfo (ks ++ '.' :: (tn ++ ';' :: rest)) = (ks, tn) ∧
    extractTableInfo (ks ++ '.' :: (tn ++ '(' :: rest)) = (ks, tn) := by
  obtain ⟨ha, hb, hc⟩ := extractTableInfo_token ks tn h1 h2 h4 h5
  exact ⟨ha, hb rest, hc rest⟩

theorem extractTableInfo_characterization_witness :
    extractTableInfo (['"', 'K', 's', '"'] ++ '.' :: ['t', '1'])
      = (['"', 'K', 's', '"'], ['t', '1']) ∧
    extractTableInfo (['"', 'K', 's', '"'] ++ '.' :: (['t', '1'] ++ '(' :: ['a', ')']))
      = (['"', 'K', 's', '"'], ['t', '1']) :=
  ⟨(extractTableInfo_characterization ['"', 'K', 's', '"'] ['t', '1'] ['a', ')']
      (by decide) (by decide) (by decide) (by decide)).1,
   (extractTableInfo_characterization ['"', 'K', 's', '"'] ['t', '1'] ['a', ')']
      (by decide) (by decide) (by decide) (by decide)).2.2⟩

/-- C9: `extractTableInfo` is idempotent with respect to a trailing `;`:
for every keyspace and table-name token (names do not contain `.`, `;`
or `(`), the tokens `keyspace.table` and `keyspace.table;` both map to
the same pair `(keyspace, table)`. -/
theorem extract_table_info_idempotent (ks tn : List Char)
    (h1 : '.' ∉ ks) (h2 : ';' ∉ ks) (h4 : ';' ∉ tn) (h5 : '(' ∉ tn) :
    extractTableInfo (ks ++ '.' :: (tn ++ [';'])) = extractTableInfo (ks ++ '.' :: tn) ∧
    extractTableInfo (ks ++ '.' :: tn) = (ks, tn) := by
  obtain ⟨ha, hb, _⟩ := extractTableInfo_token ks tn h1 h2 h4 h5
  exact ⟨by rw [ha, hb []], ha⟩

theorem extract_table_info_idempotent_witness :
    extractTableInfo (['k', 's'] ++ '.' :: (['t'] ++ [';']))
      = extractTableInfo (['k', 's'] ++ '.' :: ['t']) ∧
    extractTableInfo (['k', 's'] ++ '.' :: ['t']) = (['k', 's'], ['t']) :=
  ⟨(extract_table_info_idempotent ['k', 's'] ['t']
      (by decide) (by decide) (by decide) (by decide)).1,
   (extract_table_info_idempotent ['k', 's'] ['t']
      (by decide) (by decide) (by decide) (by decide)).2⟩

/-- C10: on a USE query whose keyspace token normalizes without
panicking, `handleUseQuery` with an unknown normalized keyspace returns
an error and leaves the proxy untouched — current keyspace unchanged,
nothing handed to the target connection; only on a known keyspace does
it record the normalized keyspace and execute the query against the
target.  (On the one token whose normalization panics, `handleUseQuery`
propagates the crash — `none` — so neither branch applies.) -/
theorem use_query_gate (s : FilterState) (query : List Nat) (kst ks : List Char)
    (hn : normalizeKeyspace kst = some ks) :
    (hasKeyspace s ks = false →
      handleUseQuery s query kst = some (s, some "invalid keyspace")) ∧
    (hasKeyspace s ks = true →
      handleUseQuery s query kst
        = some ({ s with
                  curKeyspace := ks,
                  astraWrites := s.astraWrites ++ [query] }, none)) := by
  constructor
  · intro h
    simp [handleUseQuery, hn, h]
  · intro h
    simp [handleUseQuery, hn, h]

theorem use_query_gate_witness :
    (normalizeKeyspace ['K', 'S', '1'] = some ksA ∧
     hasKeyspace sampleState ksA = true ∧
     handleUseQuery sampleState [7] ['K', 'S', '1']
       = some ({ sampleState with
                 curKeyspace := ksA,
                 astraWrites := sampleState.astraWrites ++ [[7]] }, none)) ∧
    (normalizeKeyspace ['z', 'z'] = some ['z', 'z'] ∧
     hasKeyspace sampleState ['z', 'z'] = false ∧
     handleUseQuery sampleState [7] ['z', 'z'] = some (sampleState, some "invalid keyspace")) :=
  ⟨⟨by decide, by decide,
    (use_query_gate sampleState [7] ['K', 'S', '1'] ksA (by decide)).2 (by decide)⟩,
   ⟨by decide, by decide,
    (use_query_gate sampleState [7] ['z', 'z'] ['z', 'z'] (by decide)).1 (by decide)⟩⟩

end ZdmProxy
